import Mathlib

set_option maxRecDepth 8000

/-!
Verification development for the Solvan bot (src/bot.js).

The bot queues vanity-address generation requests, runs one external search
process per job under a 600 s deadline on a BullMQ worker, stores results in
Redis under a 3600 s TTL, and drives a per-user Telegram conversation that
collects a search type, a pattern and a case-sensitivity flag.

This file shallowly embeds the parts of bot.js that the verified properties
speak about:

* a model of the JavaScript runtime JSON.parse / JSON.stringify pair
  (numbers are modelled as integers -- none of the verified properties
  depends on fractional numeric values; control characters other than
  newline, tab and carriage return pass through the escaping model
  verbatim);
* the Redis result store (setex / get with a TTL field);
* the worker close / timer callbacks of the queue processor
  (bot.js lines 61-137), including the fact that the 600 s timer is
  never cleared and that the promise settles at most once;
* waitForJobCompletion (bot.js lines 176-203), with an explicit effect
  trace recording store reads and (absent) cancellations;
* the free-text pattern handler (bot.js lines 599-653);
* the cancel_gen action (bot.js lines 723-769);
* the case_yes / case_no action (bot.js lines 656-720) as an atomic-step
  program whose instances interleave at await points, to examine the
  check-then-act discipline on the generatingUsers set;
* the address check of handleGeneration (bot.js lines 233-244).
-/

/-- JSON values as produced by the JavaScript runtime from the generator
process output. -/
inductive Json where
  | null : Json
  | bool : Bool → Json
  | num : Int → Json
  | str : String → Json
  | arr : List Json → Json
  | obj : List (String × Json) → Json

/-- Decimal digit character for a digit value below ten. -/
def digitChar (d : Nat) : Char :=
  match d with
  | 0 => '0'
  | 1 => '1'
  | 2 => '2'
  | 3 => '3'
  | 4 => '4'
  | 5 => '5'
  | 6 => '6'
  | 7 => '7'
  | 8 => '8'
  | _ => '9'

/-- Big-endian decimal digits of a natural number, accumulator form. -/
def natToDigitsAux (n : Nat) (acc : List Char) : List Char :=
  if n < 10 then digitChar (n % 10) :: acc
  else natToDigitsAux (n / 10) (digitChar (n % 10) :: acc)
termination_by n
decreasing_by exact Nat.div_lt_self (by omega) (by omega)

/-- Big-endian decimal digits of a natural number. -/
def natToDigits (n : Nat) : List Char := natToDigitsAux n []

/-- Decimal rendering of an integer, as JSON.stringify renders integral
numbers. -/
def intToChars (i : Int) : List Char :=
  if i < 0 then '-' :: natToDigits i.natAbs else natToDigits i.natAbs

/-- String-character escaping used by JSON.stringify. -/
def escChar (c : Char) : List Char :=
  if c = '"' then ['\\', '"']
  else if c = '\\' then ['\\', '\\']
  else if c = '\n' then ['\\', 'n']
  else if c = '\t' then ['\\', 't']
  else if c = '\r' then ['\\', 'r']
  else [c]

/-- Escape every character of a string body. -/
def escList : List Char → List Char
  | [] => []
  | c :: cs => escChar c ++ escList cs

/-- A JSON string literal: quote, escaped body, quote. -/
def strLitChars (s : String) : List Char := '"' :: (escList s.toList ++ ['"'])

mutual

/-- Character rendering of a JSON value (JSON.stringify). -/
def stringifyChars : Json → List Char
  | .null => "null".toList
  | .bool true => "true".toList
  | .bool false => "false".toList
  | .num i => intToChars i
  | .str s => strLitChars s
  | .arr xs => '[' :: (stringifyElems xs ++ [']'])
  | .obj kvs => '{' :: (stringifyMembers kvs ++ ['}'])

/-- Comma-separated renderings of array elements. -/
def stringifyElems : List Json → List Char
  | [] => []
  | [x] => stringifyChars x
  | x :: y :: rest => stringifyChars x ++ (',' :: stringifyElems (y :: rest))

/-- Comma-separated renderings of object members. -/
def stringifyMembers : List (String × Json) → List Char
  | [] => []
  | [(k, v)] => strLitChars k ++ (':' :: stringifyChars v)
  | (k, v) :: m :: rest =>
      (strLitChars k ++ (':' :: stringifyChars v)) ++ (',' :: stringifyMembers (m :: rest))

end

/-- JSON.stringify on the model. -/
def stringify (j : Json) : String := String.mk (stringifyChars j)

/-- JSON whitespace recognizer. -/
def isWs (c : Char) : Bool := [' ', '\t', '\n', '\r'].contains c

/-- ASCII whitespace as trimmed by the JavaScript trim method. -/
def isJsWs (c : Char) : Bool := [' ', '\t', '\n', '\r', '\x0b', '\x0c'].contains c

/-- The JavaScript trim method: strip leading and trailing whitespace. -/
def jsTrim (s : String) : String :=
  String.mk (((s.toList.dropWhile isJsWs).reverse.dropWhile isJsWs).reverse)

/-- Drop leading JSON whitespace. -/
def skipWs (cs : List Char) : List Char := cs.dropWhile isWs

/-- ASCII decimal digit recognizer. -/
def isDigitCh (c : Char) : Bool := 48 ≤ c.toNat && c.toNat ≤ 57

/-- Numeric value of a digit character. -/
def digitVal (c : Char) : Nat := c.toNat - 48

/-- Whether a character list starts with a decimal digit. -/
def digitStart : List Char → Bool
  | [] => false
  | c :: _ => isDigitCh c

/-- Consume a maximal run of digits, folding them onto an accumulator. -/
def readDigits : List Char → Nat → Nat × List Char
  | [], acc => (acc, [])
  | c :: cs, acc =>
      if isDigitCh c then readDigits cs (acc * 10 + digitVal c) else (acc, c :: cs)

/-- Parse a nonempty digit run into a natural number. -/
def parseNat : List Char → Option (Nat × List Char)
  | [] => none
  | c :: cs => if isDigitCh c then some (readDigits cs (digitVal c)) else none

/-- Inverse of the escape map for a single escape letter. -/
def unescChar (c : Char) : Option Char :=
  if c = '"' then some '"'
  else if c = '\\' then some '\\'
  else if c = '/' then some '/'
  else if c = 'n' then some '\n'
  else if c = 't' then some '\t'
  else if c = 'r' then some '\r'
  else none

/-- Parse a string body up to the closing quote, unescaping as JSON.parse
does. -/
def parseStringBody : List Char → Option (List Char × List Char)
  | [] => none
  | c :: cs =>
    if c = '"' then some ([], cs)
    else if c = '\\' then
      match cs with
      | [] => none
      | e :: cs2 =>
        match unescChar e, parseStringBody cs2 with
        | some u, some (s, r) => some (u :: s, r)
        | _, _ => none
    else
      match parseStringBody cs with
      | some (s, r) => some (c :: s, r)
      | none => none

mutual

/-- Fuel-indexed recursive-descent JSON value parser (JSON.parse). -/
def parseVal : Nat → List Char → Option (Json × List Char)
  | 0, _ => none
  | _ + 1, [] => none
  | fuel + 1, c :: rest =>
    if c = 'n' then
      match rest with
      | 'u' :: 'l' :: 'l' :: r => some (.null, r)
      | _ => none
    else if c = 't' then
      match rest with
      | 'r' :: 'u' :: 'e' :: r => some (.bool true, r)
      | _ => none
    else if c = 'f' then
      match rest with
      | 'a' :: 'l' :: 's' :: 'e' :: r => some (.bool false, r)
      | _ => none
    else if c = '"' then
      match parseStringBody rest with
      | some (s, r) => some (.str (String.mk s), r)
      | none => none
    else if c = '-' then
      match parseNat rest with
      | some (n, r) => some (.num (-(n : Int)), r)
      | none => none
    else if isDigitCh c then
      match parseNat (c :: rest) with
      | some (n, r) => some (.num ((n : Int)), r)
      | none => none
    else if c = '[' then
      if (skipWs rest).head? = some ']' then some (.arr [], (skipWs rest).tail)
      else
        match parseElems fuel (skipWs rest) with
        | some (xs, r) => some (.arr xs, r)
        | none => none
    else if c = '{' then
      if (skipWs rest).head? = some '}' then some (.obj [], (skipWs rest).tail)
      else
        match parseMembers fuel (skipWs rest) with
        | some (kvs, r) => some (.obj kvs, r)
        | none => none
    else none

/-- Parse one or more comma-separated array elements up to the closing
bracket. -/
def parseElems : Nat → List Char → Option (List Json × List Char)
  | 0, _ => none
  | fuel + 1, cs =>
    match parseVal fuel cs with
    | none => none
    | some (j, r) =>
      match skipWs r with
      | ',' :: r2 =>
        match parseElems fuel (skipWs r2) with
        | some (xs, r3) => some (j :: xs, r3)
        | none => none
      | ']' :: r2 => some ([j], r2)
      | _ => none
termination_by structural fuel => fuel

/-- Parse one or more comma-separated object members up to the closing
brace. -/
def parseMembers : Nat → List Char → Option (List (String × Json) × List Char)
  | 0, _ => none
  | fuel + 1, cs =>
    match cs with
    | '"' :: rest =>
      match parseStringBody rest with
      | none => none
      | some (k, r) =>
        match skipWs r with
        | ':' :: r2 =>
          match parseVal fuel (skipWs r2) with
          | none => none
          | some (v, r3) =>
            match skipWs r3 with
            | ',' :: r4 =>
              match parseMembers fuel (skipWs r4) with
              | some (kvs, r5) => some ((String.mk k, v) :: kvs, r5)
              | none => none
            | '}' :: r4 => some ([(String.mk k, v)], r4)
            | _ => none
        | _ => none
    | _ => none
termination_by structural fuel => fuel

end

/-- JSON.parse on the model: parse one value, allow surrounding whitespace,
reject trailing garbage.  The fuel is an upper bound on the recursion depth
and is generous enough for every input (two units per input character). -/
def jsonParse (s : String) : Option Json :=
  match parseVal (2 * s.toList.length + 2) (skipWs s.toList) with
  | some (j, r) => if (skipWs r).isEmpty then some j else none
  | none => none

mutual

/-- Fuel sufficient for parseVal to reparse a rendered value. -/
def jfuelV : Json → Nat
  | .null => 1
  | .bool _ => 1
  | .num _ => 1
  | .str _ => 1
  | .arr xs => 1 + jfuelE xs
  | .obj kvs => 1 + jfuelM kvs

/-- Fuel sufficient for parseElems to reparse rendered elements. -/
def jfuelE : List Json → Nat
  | [] => 0
  | x :: xs => 1 + jfuelV x + jfuelE xs

/-- Fuel sufficient for parseMembers to reparse rendered members. -/
def jfuelM : List (String × Json) → Nat
  | [] => 0
  | (_, v) :: rest => 1 + jfuelV v + jfuelM rest

end

/-- One stored value with its TTL, as written by redis setex. -/
structure StoreEntry where
  value : String
  ttl : Nat

/-- The Redis result store, keyed by strings. -/
structure Store where
  entries : List (String × StoreEntry)

/-- redis setex: write a value under a key with a TTL, replacing any
previous entry for that key. -/
def Store.setex (st : Store) (k : String) (ttl : Nat) (v : String) : Store :=
  ⟨(k, ⟨v, ttl⟩) :: st.entries.filter (fun e => !(e.1 == k))⟩

/-- redis get: read the value stored under a key, if any. -/
def Store.get (st : Store) (k : String) : Option String :=
  (st.entries.find? (fun e => e.1 == k)).map (fun e => e.2.value)

/-- TTL recorded for a key, if any. -/
def Store.getTtl (st : Store) (k : String) : Option Nat :=
  (st.entries.find? (fun e => e.1 == k)).map (fun e => e.2.ttl)

/-- The empty store. -/
def emptyStore : Store := ⟨[]⟩

/-- Settlement of the per-job promise inside the worker processor. -/
inductive Settle where
  | resolved (jobId : String)
  | rejected (msg : String)
deriving DecidableEq

/-- Result-store key used by the worker and the completion waiter. -/
def vanityResultKey (jobId : String) : String := "vanity-result:" ++ jobId

/-- Stand-in for the message of the SyntaxError thrown by JSON.parse on
malformed output. -/
def jsonParseErrorMsg : String := "Unexpected token in JSON"

/-- The python close handler of the worker processor (bot.js lines 92-124):
non-zero or signal exit rejects with the stderr excerpt; empty output
rejects; unparseable output rejects with the parse error; otherwise the
parsed result is written to the store under the job key with TTL 3600 and
the promise resolves.  The exit code is an Option because a process killed
by a signal closes with a null code, which JavaScript compares as not
strictly equal to zero. -/
def onClose (jobId : String) (code : Option Int) (output errorOutput : String)
    (st : Store) : Store × Settle :=
  if code ≠ some 0 then (st, .rejected ("Generator error: " ++ errorOutput))
  else if jsTrim output = "" then (st, .rejected "Generator produced no output")
  else
    match jsonParse output with
    | none => (st, .rejected jsonParseErrorMsg)
    | some result =>
      (st.setex (vanityResultKey jobId) 3600 (stringify result), .resolved jobId)

/-- The python spawn-error handler of the worker processor (bot.js lines
126-129): a spawn-level failure rejects the promise with the raw error
message; no output exists, so nothing is written to the store. -/
def onSpawnError (errMsg : String) (st : Store) : Store × Settle :=
  (st, .rejected errMsg)

/-- Observable state of one worker job execution: the store, the promise
settlement (None while pending), whether the deadline timer was ever
cleared, and how many kill calls were issued. -/
structure JobRun where
  store : Store
  settled : Option Settle
  timerCancelled : Bool
  kills : Nat

/-- A promise settles at most once: resolve and reject are no-ops once a
settlement exists. -/
def settleOnce (r : JobRun) (s : Settle) : JobRun :=
  match r.settled with
  | some _ => r
  | none => { r with settled := some s }

/-- The hard wall-clock deadline of the worker, in milliseconds
(bot.js line 135). -/
def deadlineMs : Nat := 600000

/-- The deadline timer callback (bot.js lines 131-135): kill the process
with SIGKILL and reject with Timeout.  bot.js never calls clearTimeout, so
the model has no operation that sets timerCancelled. -/
def fireTimer (r : JobRun) : JobRun :=
  if r.timerCancelled then r
  else settleOnce { r with kills := r.kills + 1 } (.rejected "Timeout")

/-- Run the close handler against the job state and attempt to settle the
promise with its outcome.  The handler body runs in full even when the
promise is already settled; only the settlement itself is latched. -/
def applyClose (jobId : String) (code : Option Int) (output errorOutput : String)
    (r : JobRun) : JobRun :=
  let res := onClose jobId code output errorOutput r.store
  settleOnce { r with store := res.1 } res.2

/-- Execution of one job by a worker slot, with events applied in wall-clock
order.  closeTime is when the process would close on its own; if that is
after the deadline, the timer fires first, SIGKILLs the process, and the
actual close event then arrives with a null exit code. -/
def execJob (jobId : String) (closeTime : Nat) (code : Option Int)
    (output errorOutput : String) (st : Store) : JobRun :=
  if closeTime ≤ deadlineMs then
    fireTimer (applyClose jobId code output errorOutput ⟨st, none, false, 0⟩)
  else
    applyClose jobId none output errorOutput (fireTimer ⟨st, none, false, 0⟩)

/-- Resolution of the race inside waitForJobCompletion: the per-job
completion notification won (job completed), the notification carried the
worker failure, or the caller-supplied timeout won. -/
inductive FinishSignal where
  | finished
  | failedSig (msg : String)
  | timedOut

/-- Side effects the completion waiter could perform, recorded as a trace:
store reads, queue cancellations, process kills.  The code performs no
cancellation or kill anywhere in this function. -/
inductive WaitEffect where
  | readStore (key : String)
  | cancelJob (jobId : String)
  | killProcess
deriving DecidableEq

/-- waitForJobCompletion (bot.js lines 176-203): look the job up, race the
finished notification against the timeout, then read the result store once
and parse the stored JSON.  The returned trace records every effect
performed after the race resolves. -/
def waitForJobCompletion (jobPresent : Bool) (signal : FinishSignal)
    (st : Store) (jobId : String) : Except String Json × List WaitEffect :=
  if !jobPresent then (.error "Job not found in queue", [])
  else
    match signal with
    | .timedOut => (.error "Job timeout", [])
    | .failedSig msg => (.error msg, [])
    | .finished =>
      match st.get (vanityResultKey jobId) with
      | none =>
          (.error "Result not in Redis - job may have failed",
           [.readStore (vanityResultKey jobId)])
      | some s =>
        match jsonParse s with
        | some j => (.ok j, [.readStore (vanityResultKey jobId)])
        | none => (.error jsonParseErrorMsg, [.readStore (vanityResultKey jobId)])

/-- Per-user session draft: the search type is the string prefix or suffix
recorded by the type buttons, the vanity string is the validated pattern. -/
structure Session where
  searchType : Option String
  vanityString : Option String
deriving DecidableEq

/-- Reply produced by the free-text handler. -/
inductive TextReply where
  | noReply
  | invalidLength (entered : String) (len : Nat)
  | invalidChar
  | casePrompt (pattern : String)
deriving DecidableEq

/-- The 58-symbol alphabet of bot.js line 615. -/
def BASE58_CHARS : String :=
  "123456789ABCDEFGHJKLMNPQRSTUVWXYZabcdefghijkmnopqrstuvwxyz"

/-- Membership test against the alphabet, as the includes call does. -/
def isBase58Char (c : Char) : Bool := BASE58_CHARS.toList.contains c

/-- The free-text handler (bot.js lines 599-653).  It returns the job list
unchanged because this handler never enqueues anything; only the case
buttons do.  The incoming text is trimmed before validation; on any
validation failure the session is untouched; on success the trimmed pattern
is recorded. -/
def onText (queue : List String) (s : Session) (text : String) :
    List String × Session × TextReply :=
  match s.searchType with
  | none => (queue, s, .noReply)
  | some _ =>
    let v := jsTrim text
    if v.length < 1 ∨ v.length > 4 then (queue, s, .invalidLength v v.length)
    else if v.toList.all isBase58Char = false then (queue, s, .invalidChar)
    else (queue, { s with vanityString := some v }, .casePrompt v)

/-- Status a queued job can have for the best-effort removal: BullMQ remove
succeeds only on jobs that have not been picked up. -/
inductive JobStatus where
  | waiting
  | active
deriving DecidableEq

/-- One job known to the queue. -/
structure QJob where
  id : String
  status : JobStatus
deriving DecidableEq

/-- The cancellation coordinator state: the userJobs map, the
generatingUsers set and the queue contents. -/
structure Coord where
  userJobs : List (Nat × String)
  generatingUsers : List Nat
  queue : List QJob
deriving DecidableEq

/-- Reply produced by the cancel_gen action. -/
inductive CancelReply where
  | noActive
  | cancelled
deriving DecidableEq

/-- Lookup in the userJobs map. -/
def lookupJob (m : List (Nat × String)) (u : Nat) : Option String :=
  (m.find? (fun e => e.1 == u)).map (fun e => e.2)

/-- Best-effort removal: remove succeeds on a waiting job; on an active or
absent job the remove call throws and the catch leaves the queue unchanged
(bot.js lines 737-745). -/
def tryRemoveJob (q : List QJob) (jid : String) : List QJob × Bool :=
  match q.find? (fun j => j.id == jid) with
  | none => (q, false)
  | some j =>
    if j.status = .waiting then (q.filter (fun x => !(x.id == jid)), true)
    else (q, false)

/-- The cancel_gen action (bot.js lines 723-769): if no job id is tracked
for the user, answer that nothing is active and change nothing; otherwise
attempt the best-effort queue removal, then unconditionally clear the
userJobs entry and the generatingUsers marker. -/
def cancelGen (userId : Nat) (c : Coord) : Coord × CancelReply :=
  match lookupJob c.userJobs userId with
  | none => (c, .noActive)
  | some jid =>
    let q2 := (tryRemoveJob c.queue jid).1
    ({ userJobs := c.userJobs.filter (fun e => !(e.1 == userId)),
       generatingUsers := c.generatingUsers.filter (fun u => !(u == userId)),
       queue := q2 }, .cancelled)

/-- Atomic steps of the case_yes / case_no handler (bot.js lines 656-720)
for one owner: an awaited call that yields to the event loop, the
generatingUsers.has check, the generatingUsers.add, and the queue.add
performed inside handleGeneration. -/
inductive SubStep where
  | awaitPoint
  | checkGenerating
  | markGenerating
  | enqueueJob
deriving DecidableEq

/-- The handler program in source order: await answerCbQuery, the has
check, await getQueueSize, await replyWithHTML, generatingUsers.add, await
deleteMessage, queue.add. -/
def caseHandlerSteps : List SubStep :=
  [.awaitPoint, .checkGenerating, .awaitPoint, .awaitPoint,
   .markGenerating, .awaitPoint, .enqueueJob]

/-- Shared state touched by concurrent submissions of one owner: the
generatingUsers membership for that owner and the number of jobs accepted
for them. -/
structure SubmitState where
  generating : Bool
  accepted : Nat
deriving DecidableEq

/-- Effect of one atomic step; the Bool reports whether the handler
instance continues (the check aborts it when the marker is set). -/
def execStep (st : SubmitState) (s : SubStep) : SubmitState × Bool :=
  match s with
  | .awaitPoint => (st, true)
  | .checkGenerating => if st.generating then (st, false) else (st, true)
  | .markGenerating => ({ st with generating := true }, true)
  | .enqueueJob => ({ st with accepted := st.accepted + 1 }, true)

/-- Interleave two handler instances under a schedule: each schedule entry
picks which instance executes its next atomic step, as the single-threaded
event loop does at await boundaries. -/
def runInterleaved : List Bool → List SubStep → List SubStep → SubmitState → SubmitState
  | [], _, _, st => st
  | pick :: sched, p1, p2, st =>
    if pick then
      match p1 with
      | [] => runInterleaved sched [] p2 st
      | s :: rest =>
        let r := execStep st s
        runInterleaved sched (if r.2 then rest else []) p2 r.1
    else
      match p2 with
      | [] => runInterleaved sched p1 [] st
      | s :: rest =>
        let r := execStep st s
        runInterleaved sched p1 (if r.2 then rest else []) r.1

/-- Field access on a parsed result, as JavaScript property access:
undefined (None) on any non-object and on a missing key. -/
def lookupField (j : Json) (k : String) : Option Json :=
  match j with
  | .obj kvs => (kvs.find? (fun kv => kv.1 == k)).map (fun kv => kv.2)
  | _ => none

/-- JavaScript truthiness of a JSON value. -/
def jsTruthy : Json → Bool
  | .null => false
  | .bool b => b
  | .num i => !(i == 0)
  | .str s => !(s == "")
  | .arr _ => true
  | .obj _ => true

/-- Outcome of the delivery step of handleGeneration. -/
inductive Delivery where
  | sent (address : Json) (privateKey : Option Json)
  | failedMsg (msg : String)

/-- The delivery gate of handleGeneration (bot.js lines 233-244): after the
waiter returns, a falsy result or a falsy result.address throws Invalid
result, which the catch renders as a generation failure; otherwise the
address and private key fields are sent to the user. -/
def deliverResult (result : Json) : Delivery :=
  if !(jsTruthy result) then .failedMsg "Invalid result"
  else
    match lookupField result "address" with
    | none => .failedMsg "Invalid result"
    | some a =>
      if !(jsTruthy a) then .failedMsg "Invalid result"
      else .sent a (lookupField result "privateKeyBase58")

/-- Modelled from the spec: the expected result schema of the external
worker output contract -- a JSON object carrying an address-like string, a
secret string, an integer attempt count and a numeric elapsed time (spec
section 6, with the field names the delivery code reads).  bot.js itself
contains no such check; this definition exists to compare the spec wording
against the code. -/
def specResultSchema (j : Json) : Bool :=
  (match lookupField j "address" with
   | some (.str _) => true
   | _ => false) &&
  (match lookupField j "privateKeyBase58" with
   | some (.str _) => true
   | _ => false) &&
  (match lookupField j "attempts" with
   | some (.num _) => true
   | _ => false) &&
  (match lookupField j "time" with
   | some (.num _) => true
   | _ => false)

/-! Helper lemmas: decimal digits invert correctly. -/

theorem digitChar_isDigit (d : Nat) (h : d < 10) : isDigitCh (digitChar d) = true := by
  interval_cases d <;> decide

theorem digitVal_digitChar (d : Nat) (h : d < 10) : digitVal (digitChar d) = d := by
  interval_cases d <;> decide

theorem natToDigitsAux_lt (n : Nat) (acc : List Char) (h : n < 10) :
    natToDigitsAux n acc = digitChar (n % 10) :: acc := by
  rw [natToDigitsAux]
  simp [h]

theorem natToDigitsAux_ge (n : Nat) (acc : List Char) (h : ¬ n < 10) :
    natToDigitsAux n acc = natToDigitsAux (n / 10) (digitChar (n % 10) :: acc) := by
  conv_lhs => rw [natToDigitsAux]
  simp [h]

theorem natToDigitsAux_eq_append (n : Nat) :
    ∀ acc : List Char, natToDigitsAux n acc = natToDigits n ++ acc := by
  induction n using Nat.strong_induction_on with
  | _ n ih =>
    intro acc
    by_cases h : n < 10
    · rw [natToDigits, natToDigitsAux_lt n acc h, natToDigitsAux_lt n [] h]
      simp
    · have hd : n / 10 < n := Nat.div_lt_self (by omega) (by omega)
      rw [natToDigits, natToDigitsAux_ge n acc h, natToDigitsAux_ge n [] h,
        ih (n / 10) hd, ih (n / 10) hd]
      simp

theorem natToDigits_ne_nil (n : Nat) : natToDigits n ≠ [] := by
  rw [natToDigits]
  by_cases h : n < 10
  · rw [natToDigitsAux_lt n [] h]
    simp
  · rw [natToDigitsAux_ge n [] h, natToDigitsAux_eq_append]
    simp

theorem natToDigits_all_digits (n : Nat) :
    ∀ c ∈ natToDigits n, isDigitCh c = true := by
  induction n using Nat.strong_induction_on with
  | _ n ih =>
    intro c hc
    rw [natToDigits] at hc
    by_cases h : n < 10
    · rw [natToDigitsAux_lt n [] h] at hc
      simp only [List.mem_singleton] at hc
      subst hc
      exact digitChar_isDigit _ (Nat.mod_lt _ (by omega))
    · rw [natToDigitsAux_ge n [] h, natToDigitsAux_eq_append] at hc
      rcases List.mem_append.mp hc with h1 | h1
      · exact ih (n / 10) (Nat.div_lt_self (by omega) (by omega)) c h1
      · simp only [List.mem_singleton] at h1
        subst h1
        exact digitChar_isDigit _ (Nat.mod_lt _ (by omega))

theorem foldl_digits_natToDigits (n : Nat) :
    ∀ a : Nat, List.foldl (fun acc c => acc * 10 + digitVal c) a (natToDigits n)
      = a * 10 ^ (natToDigits n).length + n := by
  induction n using Nat.strong_induction_on with
  | _ n ih =>
    intro a
    by_cases h : n < 10
    · rw [natToDigits, natToDigitsAux_lt n [] h]
      simp only [List.foldl_cons, List.foldl_nil, List.length_cons,
        List.length_nil, pow_one, zero_add]
      rw [digitVal_digitChar _ (Nat.mod_lt n (by omega)), Nat.mod_eq_of_lt h]
    · have hd : n / 10 < n := Nat.div_lt_self (by omega) (by omega)
      rw [natToDigits, natToDigitsAux_ge n [] h, natToDigitsAux_eq_append,
        List.foldl_append, ih (n / 10) hd]
      simp only [List.length_append, List.length_singleton, List.foldl_cons,
        List.foldl_nil, digitVal_digitChar _ (Nat.mod_lt n (by omega))]
      have hpow : 10 ^ ((natToDigits (n / 10)).length + 1)
          = 10 ^ (natToDigits (n / 10)).length * 10 := by
        rw [pow_succ]
      have hdm := Nat.div_add_mod n 10
      set K := 10 ^ (natToDigits (n / 10)).length with hK
      rw [hpow]
      ring_nf
      omega

theorem readDigits_append (ds : List Char) :
    ∀ (rest : List Char) (acc : Nat), (∀ c ∈ ds, isDigitCh c = true) →
      digitStart rest = false →
      readDigits (ds ++ rest) acc
        = (List.foldl (fun a c => a * 10 + digitVal c) acc ds, rest) := by
  induction ds with
  | nil =>
    intro rest acc _ hr
    cases rest with
    | nil => simp [readDigits]
    | cons c cs =>
      simp only [digitStart] at hr
      simp [readDigits, hr]
  | cons d ds ih =>
    intro rest acc hall hr
    have hd : isDigitCh d = true := hall d (by simp)
    simp only [List.cons_append, readDigits, hd, if_true, List.foldl_cons]
    exact ih rest _ (fun c hc => hall c (by simp [hc])) hr

theorem parseNat_natToDigits (n : Nat) (rest : List Char)
    (hr : digitStart rest = false) :
    parseNat (natToDigits n ++ rest) = some (n, rest) := by
  obtain ⟨d, ds, hds⟩ : ∃ d ds, natToDigits n = d :: ds := by
    cases h : natToDigits n with
    | nil => exact absurd h (natToDigits_ne_nil n)
    | cons d ds => exact ⟨d, ds, rfl⟩
  have hd : isDigitCh d = true := natToDigits_all_digits n d (by rw [hds]; simp)
  have hall : ∀ c ∈ ds, isDigitCh c = true := fun c hc =>
    natToDigits_all_digits n c (by rw [hds]; simp [hc])
  have hfold := foldl_digits_natToDigits n 0
  rw [hds] at hfold
  simp only [List.foldl_cons, Nat.zero_mul, Nat.zero_add, List.length_cons,
    pow_succ, zero_mul] at hfold
  rw [hds, List.cons_append]
  simp only [parseNat, hd, if_true]
  rw [readDigits_append ds rest (digitVal d) hall hr]
  simp only [Option.some.injEq, Prod.mk.injEq, and_true]
  omega

/-! Helper lemmas: string escaping inverts correctly, character classes. -/

theorem parseStringBody_round (s : List Char) :
    ∀ rest : List Char,
      parseStringBody (escList s ++ ('"' :: rest)) = some (s, rest) := by
  induction s with
  | nil =>
    intro rest
    rw [escList, List.nil_append, parseStringBody.eq_def]
    simp
  | cons c cs ih =>
    intro rest
    by_cases h1 : c = '"'
    · subst h1
      rw [escList]
      simp only [escChar, if_pos rfl, List.cons_append, List.append_assoc]
      rw [parseStringBody.eq_def]
      simp [unescChar, ih]
    · by_cases h2 : c = '\\'
      · subst h2
        rw [escList]
        simp only [escChar, if_neg (by decide : ¬ ('\\' : Char) = '"'), if_pos rfl,
          List.cons_append, List.append_assoc]
        rw [parseStringBody.eq_def]
        simp [unescChar, ih]
      · by_cases h3 : c = '\n'
        · subst h3
          rw [escList]
          simp only [escChar, if_neg (by decide : ¬ ('\n' : Char) = '"'),
            if_neg (by decide : ¬ ('\n' : Char) = '\\'), if_pos rfl,
            List.cons_append, List.append_assoc]
          rw [parseStringBody.eq_def]
          simp [unescChar, ih]
        · by_cases h4 : c = '\t'
          · subst h4
            rw [escList]
            simp only [escChar, if_neg (by decide : ¬ ('\t' : Char) = '"'),
              if_neg (by decide : ¬ ('\t' : Char) = '\\'),
              if_neg (by decide : ¬ ('\t' : Char) = '\n'), if_pos rfl,
              List.cons_append, List.append_assoc]
            rw [parseStringBody.eq_def]
            simp [unescChar, ih]
          · by_cases h5 : c = '\r'
            · subst h5
              rw [escList]
              simp only [escChar, if_neg (by decide : ¬ ('\r' : Char) = '"'),
                if_neg (by decide : ¬ ('\r' : Char) = '\\'),
                if_neg (by decide : ¬ ('\r' : Char) = '\n'),
                if_neg (by decide : ¬ ('\r' : Char) = '\t'), if_pos rfl,
                List.cons_append, List.append_assoc]
              rw [parseStringBody.eq_def]
              simp [unescChar, ih]
            · rw [escList]
              simp only [escChar, if_neg h1, if_neg h2, if_neg h3, if_neg h4, if_neg h5,
                List.singleton_append]
              rw [parseStringBody.eq_def]
              simp [h1, h2, ih]

theorem isDigitCh_ne (c : Char) (h : isDigitCh c = true) :
    c ≠ 'n' ∧ c ≠ 't' ∧ c ≠ 'f' ∧ c ≠ '"' ∧ c ≠ '-' ∧ c ≠ '[' ∧ c ≠ '{' ∧
    c ≠ ']' ∧ c ≠ '}' ∧ c ≠ ',' ∧ c ≠ ':' := by
  refine ⟨?_, ?_, ?_, ?_, ?_, ?_, ?_, ?_, ?_, ?_, ?_⟩ <;>
    (intro heq; subst heq; exact absurd h (by decide))

theorem isDigitCh_not_ws (c : Char) (h : isDigitCh c = true) : isWs c = false := by
  cases hw : isWs c with
  | false => rfl
  | true =>
    exfalso
    have hor : c = ' ' ∨ c = '\t' ∨ c = '\n' ∨ c = '\r' := by
      simpa [isWs, or_assoc] using hw
    rcases hor with h1 | h1 | h1 | h1 <;> (subst h1; exact absurd h (by decide))

theorem skipWs_cons_not_ws (c : Char) (t : List Char) (h : isWs c = false) :
    skipWs (c :: t) = c :: t := by
  simp [skipWs, List.dropWhile_cons, h]

/-- The first character of a rendered JSON value is never whitespace and
never a closing bracket or brace. -/
theorem stringifyChars_head (j : Json) :
    ∃ c t, stringifyChars j = c :: t ∧ isWs c = false ∧ c ≠ ']' ∧ c ≠ '}' := by
  cases j with
  | null =>
    exact ⟨'n', ['u', 'l', 'l'], by simp [stringifyChars], by decide, by decide, by decide⟩
  | bool b =>
    cases b with
    | false =>
      exact ⟨'f', ['a', 'l', 's', 'e'], by simp [stringifyChars], by decide, by decide, by decide⟩
    | true =>
      exact ⟨'t', ['r', 'u', 'e'], by simp [stringifyChars], by decide, by decide, by decide⟩
  | num i =>
    by_cases h : i < 0
    · exact ⟨'-', natToDigits i.natAbs, by simp [stringifyChars, intToChars, h],
        by decide, by decide, by decide⟩
    · obtain ⟨d, ds, hds⟩ : ∃ d ds, natToDigits i.natAbs = d :: ds := by
        cases hh : natToDigits i.natAbs with
        | nil => exact absurd hh (natToDigits_ne_nil _)
        | cons d ds => exact ⟨d, ds, rfl⟩
      have hd : isDigitCh d = true := natToDigits_all_digits _ d (by rw [hds]; simp)
      exact ⟨d, ds, by simp [stringifyChars, intToChars, h, hds],
        isDigitCh_not_ws d hd, (isDigitCh_ne d hd).2.2.2.2.2.2.2.1,
        (isDigitCh_ne d hd).2.2.2.2.2.2.2.2.1⟩
  | str s =>
    exact ⟨'"', escList s.toList ++ ['"'], by simp [stringifyChars, strLitChars],
      by decide, by decide, by decide⟩
  | arr xs =>
    exact ⟨'[', stringifyElems xs ++ [']'], by simp [stringifyChars],
      by decide, by decide, by decide⟩
  | obj kvs =>
    exact ⟨'{', stringifyMembers kvs ++ ['}'], by simp [stringifyChars],
      by decide, by decide, by decide⟩

/-- The first character of a rendered nonempty element list is the first
character of its first element. -/
theorem stringifyElems_head (x : Json) (t : List Json) :
    ∃ c t2, stringifyElems (x :: t) = c :: t2 ∧ isWs c = false ∧ c ≠ ']' ∧ c ≠ '}' := by
  obtain ⟨c, t0, hx, hws, h1, h2⟩ := stringifyChars_head x
  cases t with
  | nil => exact ⟨c, t0, by simp [stringifyElems, hx], hws, h1, h2⟩
  | cons y t' =>
    exact ⟨c, t0 ++ (',' :: stringifyElems (y :: t')),
      by simp [stringifyElems, hx], hws, h1, h2⟩

/-! Helper lemmas: one-step unfoldings of the fuel-indexed parser. -/

theorem parseVal_step (fuel : Nat) (c : Char) (rest : List Char) :
    parseVal (fuel + 1) (c :: rest) =
      (if c = 'n' then
        match rest with
        | 'u' :: 'l' :: 'l' :: r => some (.null, r)
        | _ => none
      else if c = 't' then
        match rest with
        | 'r' :: 'u' :: 'e' :: r => some (.bool true, r)
        | _ => none
      else if c = 'f' then
        match rest with
        | 'a' :: 'l' :: 's' :: 'e' :: r => some (.bool false, r)
        | _ => none
      else if c = '"' then
        match parseStringBody rest with
        | some (s, r) => some (.str (String.mk s), r)
        | none => none
      else if c = '-' then
        match parseNat rest with
        | some (n, r) => some (.num (-(n : Int)), r)
        | none => none
      else if isDigitCh c then
        match parseNat (c :: rest) with
        | some (n, r) => some (.num ((n : Int)), r)
        | none => none
      else if c = '[' then
        if (skipWs rest).head? = some ']' then some (.arr [], (skipWs rest).tail)
        else
          match parseElems fuel (skipWs rest) with
          | some (xs, r) => some (.arr xs, r)
          | none => none
      else if c = '{' then
        if (skipWs rest).head? = some '}' then some (.obj [], (skipWs rest).tail)
        else
          match parseMembers fuel (skipWs rest) with
          | some (kvs, r) => some (.obj kvs, r)
          | none => none
      else none) := rfl

theorem parseElems_step (fuel : Nat) (cs : List Char) :
    parseElems (fuel + 1) cs =
      (match parseVal fuel cs with
       | none => none
       | some (j, r) =>
         match skipWs r with
         | ',' :: r2 =>
           (match parseElems fuel (skipWs r2) with
            | some (xs, r3) => some (j :: xs, r3)
            | none => none)
         | ']' :: r2 => some ([j], r2)
         | _ => none) := rfl

theorem parseMembers_step (fuel : Nat) (cs : List Char) :
    parseMembers (fuel + 1) cs =
      (match cs with
       | '"' :: rest =>
         (match parseStringBody rest with
          | none => none
          | some (k, r) =>
            match skipWs r with
            | ':' :: r2 =>
              (match parseVal fuel (skipWs r2) with
               | none => none
               | some (v, r3) =>
                 match skipWs r3 with
                 | ',' :: r4 =>
                   (match parseMembers fuel (skipWs r4) with
                    | some (kvs, r5) => some ((String.mk k, v) :: kvs, r5)
                    | none => none)
                 | '}' :: r4 => some ([(String.mk k, v)], r4)
                 | _ => none)
            | _ => none)
       | _ => none) := rfl

theorem jfuelV_pos (j : Json) : 1 ≤ jfuelV j := by
  cases j <;> simp [jfuelV, jfuelE, jfuelM] <;> omega

theorem jfuelE_pos (xs : List Json) (h : xs ≠ []) : 1 ≤ jfuelE xs := by
  cases xs with
  | nil => exact absurd rfl h
  | cons x t => simp [jfuelE]; omega

theorem jfuelM_pos (kvs : List (String × Json)) (h : kvs ≠ []) : 1 ≤ jfuelM kvs := by
  cases kvs with
  | nil => exact absurd rfl h
  | cons x t =>
    cases x with
    | mk k v => simp [jfuelM]; omega

/-- The first character of a rendered nonempty member list is the opening
quote of its first key. -/
theorem stringifyMembers_head (k : String) (v : Json) (t : List (String × Json)) :
    ∃ t2, stringifyMembers ((k, v) :: t) = '"' :: t2 := by
  cases t with
  | nil =>
    exact ⟨(escList k.toList ++ ['"']) ++ (':' :: stringifyChars v),
      by simp [stringifyMembers, strLitChars]⟩
  | cons m t' =>
    exact ⟨((escList k.toList ++ ['"']) ++ (':' :: stringifyChars v))
        ++ (',' :: stringifyMembers (m :: t')),
      by simp [stringifyMembers, strLitChars]⟩

/-! The parser inverts the renderer (the stringify / parse round trip). -/

theorem parse_round_master (fuel : Nat) :
    (∀ j rest, jfuelV j ≤ fuel → digitStart rest = false →
      parseVal fuel (stringifyChars j ++ rest) = some (j, rest)) ∧
    (∀ xs rest, xs ≠ [] → jfuelE xs ≤ fuel →
      parseElems fuel (stringifyElems xs ++ (']' :: rest)) = some (xs, rest)) ∧
    (∀ kvs rest, kvs ≠ [] → jfuelM kvs ≤ fuel →
      parseMembers fuel (stringifyMembers kvs ++ ('}' :: rest)) = some (kvs, rest)) := by
  induction fuel with
  | zero =>
    refine ⟨?_, ?_, ?_⟩
    · intro j rest hf _
      have := jfuelV_pos j
      omega
    · intro xs rest hne hf
      have := jfuelE_pos xs hne
      omega
    · intro kvs rest hne hf
      have := jfuelM_pos kvs hne
      omega
  | succ fuel ih =>
    obtain ⟨ihV, ihE, ihM⟩ := ih
    refine ⟨?_, ?_, ?_⟩
    · intro j rest hf hd
      cases j with
      | null => rfl
      | bool b => cases b <;> rfl
      | num i =>
        by_cases hneg : i < 0
        · have hstr : stringifyChars (.num i) = '-' :: natToDigits i.natAbs := by
            simp [stringifyChars, intToChars, hneg]
          have hstep : parseVal (fuel + 1) ('-' :: (natToDigits i.natAbs ++ rest)) =
              (match parseNat (natToDigits i.natAbs ++ rest) with
               | some (n, r) => some (.num (-(n : Int)), r)
               | none => none) := rfl
          rw [hstr, List.cons_append, hstep, parseNat_natToDigits _ _ hd]
          show some (Json.num (-((i.natAbs : Nat) : Int)), rest) = some (Json.num i, rest)
          have hval : -((i.natAbs : Int)) = i := by omega
          rw [hval]
        · have hstr : stringifyChars (.num i) = natToDigits i.natAbs := by
            simp [stringifyChars, intToChars, hneg]
          obtain ⟨d, ds, hds⟩ : ∃ d ds, natToDigits i.natAbs = d :: ds := by
            cases hh : natToDigits i.natAbs with
            | nil => exact absurd hh (natToDigits_ne_nil _)
            | cons d ds => exact ⟨d, ds, rfl⟩
          have hdig : isDigitCh d = true := natToDigits_all_digits _ d (by rw [hds]; simp)
          obtain ⟨hn, ht, hfc, hq, hm, _, _, _, _, _, _⟩ := isDigitCh_ne d hdig
          rw [hstr, hds, List.cons_append, parseVal_step,
            if_neg hn, if_neg ht, if_neg hfc, if_neg hq, if_neg hm, if_pos hdig,
            ← List.cons_append, ← hds, parseNat_natToDigits _ _ hd]
          show some (Json.num ((i.natAbs : Nat) : Int), rest) = some (Json.num i, rest)
          have hval : ((i.natAbs : Int)) = i := by omega
          rw [hval]
      | str s =>
        have hstr : stringifyChars (.str s) ++ rest
            = '"' :: (escList s.toList ++ ('"' :: rest)) := by
          simp [stringifyChars, strLitChars]
        have hstep : parseVal (fuel + 1) ('"' :: (escList s.toList ++ ('"' :: rest))) =
            (match parseStringBody (escList s.toList ++ ('"' :: rest)) with
             | some (sb, r) => some (.str (String.mk sb), r)
             | none => none) := rfl
        rw [hstr, hstep, parseStringBody_round]
        show some (Json.str (String.mk s.toList), rest) = some (Json.str s, rest)
        have hmk : String.mk s.toList = s := by cases s; rfl
        rw [hmk]
      | arr xs =>
        cases xs with
        | nil =>
          have hstr : stringifyChars (.arr []) = ['[', ']'] := by
            simp [stringifyChars, stringifyElems]
          rw [hstr]
          rfl
        | cons x t =>
          have hstr : stringifyChars (.arr (x :: t)) ++ rest
              = '[' :: (stringifyElems (x :: t) ++ (']' :: rest)) := by
            simp [stringifyChars]
          have hstep : ∀ X, parseVal (fuel + 1) ('[' :: X) =
              (if (skipWs X).head? = some ']' then some (.arr [], (skipWs X).tail)
               else
                 match parseElems fuel (skipWs X) with
                 | some (xs2, r) => some (.arr xs2, r)
                 | none => none) := fun X => rfl
          obtain ⟨c, t2, hE, hws, hc1, hc2⟩ := stringifyElems_head x t
          have hfe : jfuelE (x :: t) ≤ fuel := by
            have h2 : jfuelV (.arr (x :: t)) = 1 + jfuelE (x :: t) := by simp [jfuelV]
            omega
          have hskip : skipWs (stringifyElems (x :: t) ++ (']' :: rest))
              = stringifyElems (x :: t) ++ (']' :: rest) := by
            rw [hE, List.cons_append]
            exact skipWs_cons_not_ws c _ hws
          have hhead : (stringifyElems (x :: t) ++ (']' :: rest)).head? = some c := by
            rw [hE, List.cons_append, List.head?_cons]
          rw [hstr, hstep, hskip, hhead,
            if_neg (by simp [hc1]), ihE (x :: t) rest (by simp) hfe]
      | obj kvs =>
        cases kvs with
        | nil =>
          have hstr : stringifyChars (.obj []) = ['{', '}'] := by
            simp [stringifyChars, stringifyMembers]
          rw [hstr]
          rfl
        | cons kv t =>
          obtain ⟨k, v⟩ := kv
          have hstr : stringifyChars (.obj ((k, v) :: t)) ++ rest
              = '{' :: (stringifyMembers ((k, v) :: t) ++ ('}' :: rest)) := by
            simp [stringifyChars]
          have hstep : ∀ X, parseVal (fuel + 1) ('{' :: X) =
              (if (skipWs X).head? = some '}' then some (.obj [], (skipWs X).tail)
               else
                 match parseMembers fuel (skipWs X) with
                 | some (kvs2, r) => some (.obj kvs2, r)
                 | none => none) := fun X => rfl
          obtain ⟨t2, hM⟩ := stringifyMembers_head k v t
          have hfm : jfuelM ((k, v) :: t) ≤ fuel := by
            have h2 : jfuelV (.obj ((k, v) :: t)) = 1 + jfuelM ((k, v) :: t) := by
              simp [jfuelV]
            omega
          have hskip : skipWs (stringifyMembers ((k, v) :: t) ++ ('}' :: rest))
              = stringifyMembers ((k, v) :: t) ++ ('}' :: rest) := by
            rw [hM, List.cons_append]
            exact skipWs_cons_not_ws '"' _ (by decide)
          have hhead : (stringifyMembers ((k, v) :: t) ++ ('}' :: rest)).head? = some '"' := by
            rw [hM, List.cons_append, List.head?_cons]
          rw [hstr, hstep, hskip, hhead,
            if_neg (by simp), ihM ((k, v) :: t) rest (by simp) hfm]
    · intro xs rest hne hf
      cases xs with
      | nil => exact absurd rfl hne
      | cons x t =>
        have hfx : jfuelV x ≤ fuel := by
          have h2 : jfuelE (x :: t) = 1 + jfuelV x + jfuelE t := by simp [jfuelE]
          omega
        cases t with
        | nil =>
          have hstr : stringifyElems [x] ++ (']' :: rest)
              = stringifyChars x ++ (']' :: rest) := by
            simp [stringifyElems]
          rw [hstr, parseElems_step, ihV x (']' :: rest) hfx rfl]
          rfl
        | cons y t' =>
          have hstr : stringifyElems (x :: y :: t') ++ (']' :: rest)
              = stringifyChars x ++ (',' :: (stringifyElems (y :: t') ++ (']' :: rest))) := by
            simp [stringifyElems]
          have hfe2 : jfuelE (y :: t') ≤ fuel := by
            have h2 : jfuelE (x :: y :: t') = 1 + jfuelV x + jfuelE (y :: t') := by
              simp [jfuelE]
            omega
          obtain ⟨c, t2, hE, hws, hc1, hc2⟩ := stringifyElems_head y t'
          have hskip : skipWs (stringifyElems (y :: t') ++ (']' :: rest))
              = stringifyElems (y :: t') ++ (']' :: rest) := by
            rw [hE, List.cons_append]
            exact skipWs_cons_not_ws c _ hws
          have hmid : parseElems (fuel + 1)
              (stringifyChars x ++ (',' :: (stringifyElems (y :: t') ++ (']' :: rest))))
              = (match parseElems fuel
                    (skipWs (stringifyElems (y :: t') ++ (']' :: rest))) with
                 | some (xs2, r3) => some (x :: xs2, r3)
                 | none => none) := by
            rw [parseElems_step,
              ihV x (',' :: (stringifyElems (y :: t') ++ (']' :: rest))) hfx rfl]
            rfl
          rw [hstr, hmid, hskip, ihE (y :: t') rest (by simp) hfe2]
    · intro kvs rest hne hf
      cases kvs with
      | nil => exact absurd rfl hne
      | cons kv t =>
        obtain ⟨k, v⟩ := kv
        have hfv : jfuelV v ≤ fuel := by
          have h2 : jfuelM ((k, v) :: t) = 1 + jfuelV v + jfuelM t := by simp [jfuelM]
          omega
        have hmk : String.mk k.toList = k := by cases k; rfl
        have hstep2 : ∀ K, parseMembers (fuel + 1) ('"' :: K)
            = (match parseStringBody K with
               | none => none
               | some (k2, r) =>
                 match skipWs r with
                 | ':' :: r2 =>
                   (match parseVal fuel (skipWs r2) with
                    | none => none
                    | some (v2, r3) =>
                      match skipWs r3 with
                      | ',' :: r4 =>
                        (match parseMembers fuel (skipWs r4) with
                         | some (kvs2, r5) => some ((String.mk k2, v2) :: kvs2, r5)
                         | none => none)
                      | '}' :: r4 => some ([(String.mk k2, v2)], r4)
                      | _ => none)
                 | _ => none) := fun K => rfl
        cases t with
        | nil =>
          have hW : stringifyMembers [(k, v)] ++ ('}' :: rest)
              = '"' :: (escList k.toList
                  ++ ('"' :: (':' :: (stringifyChars v ++ ('}' :: rest))))) := by
            simp [stringifyMembers, strLitChars]
          have hskipv : skipWs (stringifyChars v ++ ('}' :: rest))
              = stringifyChars v ++ ('}' :: rest) := by
            obtain ⟨c, t2, hV, hws, _, _⟩ := stringifyChars_head v
            rw [hV, List.cons_append]
            exact skipWs_cons_not_ws c _ hws
          have hmid : (match parseStringBody (escList k.toList
                  ++ ('"' :: (':' :: (stringifyChars v ++ ('}' :: rest))))) with
               | none => none
               | some (k2, r) =>
                 match skipWs r with
                 | ':' :: r2 =>
                   (match parseVal fuel (skipWs r2) with
                    | none => none
                    | some (v2, r3) =>
                      match skipWs r3 with
                      | ',' :: r4 =>
                        (match parseMembers fuel (skipWs r4) with
                         | some (kvs2, r5) => some ((String.mk k2, v2) :: kvs2, r5)
                         | none => none)
                      | '}' :: r4 => some ([(String.mk k2, v2)], r4)
                      | _ => none)
                 | _ => none)
              = (match parseVal fuel (skipWs (stringifyChars v ++ ('}' :: rest))) with
                 | none => none
                 | some (v2, r3) =>
                   match skipWs r3 with
                   | ',' :: r4 =>
                     (match parseMembers fuel (skipWs r4) with
                      | some (kvs2, r5) => some ((String.mk k.toList, v2) :: kvs2, r5)
                      | none => none)
                   | '}' :: r4 => some ([(String.mk k.toList, v2)], r4)
                   | _ => none) := by
            rw [parseStringBody_round]
            rfl
          rw [hW, hstep2, hmid, hskipv, ihV v ('}' :: rest) hfv rfl, hmk]
          rfl
        | cons m t' =>
          obtain ⟨k2, v2⟩ := m
          have hfm2 : jfuelM ((k2, v2) :: t') ≤ fuel := by
            have h2 : jfuelM ((k, v) :: (k2, v2) :: t')
                = 1 + jfuelV v + jfuelM ((k2, v2) :: t') := by simp [jfuelM]
            omega
          have hW : stringifyMembers ((k, v) :: (k2, v2) :: t') ++ ('}' :: rest)
              = '"' :: (escList k.toList ++ ('"' :: (':' :: (stringifyChars v
                  ++ (',' :: (stringifyMembers ((k2, v2) :: t') ++ ('}' :: rest))))))) := by
            simp [stringifyMembers, strLitChars]
          have hskipv2 : skipWs (stringifyChars v
              ++ (',' :: (stringifyMembers ((k2, v2) :: t') ++ ('}' :: rest))))
              = stringifyChars v
                ++ (',' :: (stringifyMembers ((k2, v2) :: t') ++ ('}' :: rest))) := by
            obtain ⟨c, t2, hV, hws, _, _⟩ := stringifyChars_head v
            rw [hV, List.cons_append]
            exact skipWs_cons_not_ws c _ hws
          have hskipm : skipWs (stringifyMembers ((k2, v2) :: t') ++ ('}' :: rest))
              = stringifyMembers ((k2, v2) :: t') ++ ('}' :: rest) := by
            obtain ⟨t3, hM2⟩ := stringifyMembers_head k2 v2 t'
            rw [hM2, List.cons_append]
            exact skipWs_cons_not_ws '"' _ (by decide)
          have hmid : (match parseStringBody (escList k.toList
                  ++ ('"' :: (':' :: (stringifyChars v
                    ++ (',' :: (stringifyMembers ((k2, v2) :: t') ++ ('}' :: rest))))))) with
               | none => none
               | some (kk, r) =>
                 match skipWs r with
                 | ':' :: r2 =>
                   (match parseVal fuel (skipWs r2) with
                    | none => none
                    | some (vv, r3) =>
                      match skipWs r3 with
                      | ',' :: r4 =>
                        (match parseMembers fuel (skipWs r4) with
                         | some (kvs2, r5) => some ((String.mk kk, vv) :: kvs2, r5)
                         | none => none)
                      | '}' :: r4 => some ([(String.mk kk, vv)], r4)
                      | _ => none)
                 | _ => none)
              = (match parseVal fuel (skipWs (stringifyChars v
                    ++ (',' :: (stringifyMembers ((k2, v2) :: t') ++ ('}' :: rest))))) with
                 | none => none
                 | some (vv, r3) =>
                   match skipWs r3 with
                   | ',' :: r4 =>
                     (match parseMembers fuel (skipWs r4) with
                      | some (kvs2, r5) => some ((String.mk k.toList, vv) :: kvs2, r5)
                      | none => none)
                   | '}' :: r4 => some ([(String.mk k.toList, vv)], r4)
                   | _ => none) := by
            rw [parseStringBody_round]
            rfl
          rw [hW, hstep2, hmid, hskipv2,
            ihV v (',' :: (stringifyMembers ((k2, v2) :: t') ++ ('}' :: rest))) hfv rfl]
          show (match parseMembers fuel (skipWs (stringifyMembers ((k2, v2) :: t')
                  ++ ('}' :: rest))) with
               | some (kvs2, r5) => some ((String.mk k.toList, v) :: kvs2, r5)
               | none => none) = some ((k, v) :: (k2, v2) :: t', rest)
          rw [hskipm, ihM ((k2, v2) :: t') rest (by simp) hfm2, hmk]

/-! Fuel adequacy: the fuel jsonParse supplies always suffices to reparse a
rendered value. -/

theorem jfuel_le_master (n : Nat) :
    (∀ j : Json, jfuelV j ≤ n → jfuelV j ≤ 2 * (stringifyChars j).length) ∧
    (∀ xs : List Json, jfuelE xs ≤ n → jfuelE xs ≤ 2 * (stringifyElems xs).length + 1) ∧
    (∀ kvs : List (String × Json), jfuelM kvs ≤ n →
      jfuelM kvs ≤ 2 * (stringifyMembers kvs).length + 1) := by
  induction n using Nat.strong_induction_on with
  | _ n ih =>
    refine ⟨?_, ?_, ?_⟩
    · intro j hf
      cases j with
      | null =>
        have h1 : jfuelV Json.null = 1 := by simp [jfuelV]
        have h2 : (stringifyChars Json.null).length = 4 := by simp [stringifyChars]
        omega
      | bool b =>
        have h1 : jfuelV (Json.bool b) = 1 := by simp [jfuelV]
        have h2 : 1 ≤ (stringifyChars (Json.bool b)).length := by
          cases b <;> simp [stringifyChars]
        omega
      | num i =>
        have h1 : jfuelV (Json.num i) = 1 := by simp [jfuelV]
        have hne : stringifyChars (Json.num i) ≠ [] := by
          by_cases hneg : i < 0 <;>
            simp [stringifyChars, intToChars, hneg, natToDigits_ne_nil]
        have h2 : 1 ≤ (stringifyChars (Json.num i)).length :=
          List.length_pos.mpr hne
        omega
      | str s =>
        have h1 : jfuelV (Json.str s) = 1 := by simp [jfuelV]
        have hne : stringifyChars (Json.str s) ≠ [] := by
          simp [stringifyChars, strLitChars]
        have h2 : 1 ≤ (stringifyChars (Json.str s)).length :=
          List.length_pos.mpr hne
        omega
      | arr xs =>
        cases xs with
        | nil =>
          have h1 : jfuelV (Json.arr []) = 1 := by simp [jfuelV, jfuelE]
          have h2 : (stringifyChars (Json.arr [])).length = 2 := by
            simp [stringifyChars, stringifyElems]
          omega
        | cons x t =>
          have h1 : jfuelV (Json.arr (x :: t)) = 1 + jfuelE (x :: t) := by
            simp [jfuelV]
          have hpos := jfuelE_pos (x :: t) (by simp)
          have hEb := (ih (n - 1) (by omega)).2.1 (x :: t) (by omega)
          have h2 : (stringifyChars (Json.arr (x :: t))).length
              = (stringifyElems (x :: t)).length + 2 := by
            simp [stringifyChars]
          omega
      | obj kvs =>
        cases kvs with
        | nil =>
          have h1 : jfuelV (Json.obj []) = 1 := by simp [jfuelV, jfuelM]
          have h2 : (stringifyChars (Json.obj [])).length = 2 := by
            simp [stringifyChars, stringifyMembers]
          omega
        | cons kv t =>
          obtain ⟨k, v⟩ := kv
          have h1 : jfuelV (Json.obj ((k, v) :: t)) = 1 + jfuelM ((k, v) :: t) := by
            simp [jfuelV]
          have hpos := jfuelM_pos ((k, v) :: t) (by simp)
          have hMb := (ih (n - 1) (by omega)).2.2 ((k, v) :: t) (by omega)
          have h2 : (stringifyChars (Json.obj ((k, v) :: t))).length
              = (stringifyMembers ((k, v) :: t)).length + 2 := by
            simp [stringifyChars]
          omega
    · intro xs hf
      cases xs with
      | nil =>
        have h1 : jfuelE ([] : List Json) = 0 := by simp [jfuelE]
        omega
      | cons x t =>
        have h1 : jfuelE (x :: t) = 1 + jfuelV x + jfuelE t := by simp [jfuelE]
        have hVpos := jfuelV_pos x
        have hVb := (ih (n - 1) (by omega)).1 x (by omega)
        cases t with
        | nil =>
          have h2 : jfuelE ([] : List Json) = 0 := by simp [jfuelE]
          have h3 : (stringifyElems [x]).length = (stringifyChars x).length := by
            simp [stringifyElems]
          omega
        | cons y t2 =>
          have hEpos := jfuelE_pos (y :: t2) (by simp)
          have hEb := (ih (n - 1) (by omega)).2.1 (y :: t2) (by omega)
          have h3 : (stringifyElems (x :: y :: t2)).length
              = (stringifyChars x).length + 1 + (stringifyElems (y :: t2)).length := by
            simp [stringifyElems]
            omega
          omega
    · intro kvs hf
      cases kvs with
      | nil =>
        have h1 : jfuelM ([] : List (String × Json)) = 0 := by simp [jfuelM]
        omega
      | cons kv t =>
        obtain ⟨k, v⟩ := kv
        have h1 : jfuelM ((k, v) :: t) = 1 + jfuelV v + jfuelM t := by simp [jfuelM]
        have hVpos := jfuelV_pos v
        have hVb := (ih (n - 1) (by omega)).1 v (by omega)
        cases t with
        | nil =>
          have h2 : jfuelM ([] : List (String × Json)) = 0 := by simp [jfuelM]
          have h3 : (stringifyMembers [(k, v)]).length
              = (strLitChars k).length + 1 + (stringifyChars v).length := by
            simp [stringifyMembers]
            omega
          omega
        | cons m t2 =>
          obtain ⟨k2, v2⟩ := m
          have hMpos := jfuelM_pos ((k2, v2) :: t2) (by simp)
          have hMb := (ih (n - 1) (by omega)).2.2 ((k2, v2) :: t2) (by omega)
          have h3 : (stringifyMembers ((k, v) :: (k2, v2) :: t2)).length
              = (strLitChars k).length + 1 + (stringifyChars v).length + 1
                + (stringifyMembers ((k2, v2) :: t2)).length := by
            simp [stringifyMembers]
            omega
          omega

/-- JSON.parse inverts JSON.stringify on the model: serialize, store,
retrieve, deserialize is the identity. -/
theorem jsonParse_stringify (j : Json) : jsonParse (stringify j) = some j := by
  have hb := (jfuel_le_master (jfuelV j)).1 j (le_refl _)
  have hlist : (stringify j).toList = stringifyChars j := rfl
  obtain ⟨c, t, hH, hws, hc1, hc2⟩ := stringifyChars_head j
  have hskip : skipWs (stringifyChars j) = stringifyChars j := by
    rw [hH]
    exact skipWs_cons_not_ws c _ hws
  have hmain := (parse_round_master (2 * (stringifyChars j).length + 2)).1 j []
    (by omega) rfl
  rw [List.append_nil] at hmain
  simp only [jsonParse, hlist, hskip, hmain]
  rfl

/-! Helper lemmas: the store and the registry maps. -/

theorem Store.get_setex_same (st : Store) (k : String) (ttl : Nat) (v : String) :
    (st.setex k ttl v).get k = some v := by
  simp [Store.get, Store.setex, List.find?_cons]

theorem Store.getTtl_setex_same (st : Store) (k : String) (ttl : Nat) (v : String) :
    (st.setex k ttl v).getTtl k = some ttl := by
  simp [Store.getTtl, Store.setex, List.find?_cons]

theorem lookupJob_filter_self (m : List (Nat × String)) (u : Nat) :
    lookupJob (m.filter (fun e => !(e.1 == u))) u = none := by
  induction m with
  | nil => rfl
  | cons e t ih =>
    obtain ⟨a, b⟩ := e
    by_cases h : a = u
    · subst h
      simpa [List.filter_cons] using ih
    · have hbeq : (a == u) = false := by simp [h]
      simp only [List.filter_cons, hbeq, Bool.not_false, if_pos, lookupJob,
        List.find?_cons]
      simp only [lookupJob] at ih
      simpa [hbeq] using ih

theorem contains_filter_self (l : List Nat) (u : Nat) :
    (l.filter (fun x => !(x == u))).contains u = false := by
  induction l with
  | nil => rfl
  | cons a t ih =>
    by_cases h : a = u
    · subst h
      simpa [List.filter_cons] using ih
    · have hbeq : (a == u) = false := by simp [h]
      have hbeq2 : (u == a) = false := by simp [Ne.symm h]
      simp only [List.filter_cons, hbeq, Bool.not_false, if_pos]
      rw [List.contains_cons, hbeq2, Bool.false_or]
      exact ih

/-! Execution-shape lemmas for the worker slot. -/

theorem execJob_early (jobId : String) (closeTime : Nat) (code : Option Int)
    (output errorOutput : String) (st : Store) (h : closeTime ≤ deadlineMs) :
    execJob jobId closeTime code output errorOutput st
      = ⟨(onClose jobId code output errorOutput st).1,
         some (onClose jobId code output errorOutput st).2, false, 1⟩ := by
  have hexec : execJob jobId closeTime code output errorOutput st
      = fireTimer (applyClose jobId code output errorOutput ⟨st, none, false, 0⟩) := by
    simp [execJob, h]
  rcases hc : onClose jobId code output errorOutput st with ⟨st2, s2⟩
  have happ : applyClose jobId code output errorOutput ⟨st, none, false, 0⟩
      = ⟨st2, some s2, false, 0⟩ := by
    simp [applyClose, hc, settleOnce]
  have hfire : fireTimer (⟨st2, some s2, false, 0⟩ : JobRun)
      = ⟨st2, some s2, false, 1⟩ := by
    simp [fireTimer, settleOnce]
  rw [hexec, happ, hfire]

theorem execJob_late (jobId : String) (closeTime : Nat) (code : Option Int)
    (output errorOutput : String) (st : Store) (h : deadlineMs < closeTime) :
    execJob jobId closeTime code output errorOutput st
      = ⟨(onClose jobId none output errorOutput st).1,
         some (.rejected "Timeout"), false, 1⟩ := by
  have hexec : execJob jobId closeTime code output errorOutput st
      = applyClose jobId none output errorOutput (fireTimer ⟨st, none, false, 0⟩) := by
    simp [execJob, Nat.not_le.mpr h]
  have hfire : fireTimer (⟨st, none, false, 0⟩ : JobRun)
      = ⟨st, some (.rejected "Timeout"), false, 1⟩ := by
    simp [fireTimer, settleOnce]
  rcases hc : onClose jobId none output errorOutput st with ⟨st2, s2⟩
  have happ : applyClose jobId none output errorOutput
      (⟨st, some (.rejected "Timeout"), false, 1⟩ : JobRun)
      = ⟨st2, some (.rejected "Timeout"), false, 1⟩ := by
    simp [applyClose, hc, settleOnce]
  rw [hexec, hfire, happ]

/-! Claim theorems. -/

/-- Claim C1: the spec asserts that at no instant an owner has two jobs in
flight because the check of the generating marker and its setting are
performed atomically.  In bot.js the generatingUsers.has check and the
generatingUsers.add are separated by awaited calls (getQueueSize,
replyWithHTML), so the event loop can interleave two submissions of the
same owner between them.  This theorem evaluates the handler model at that
failing schedule: both instances pass the check before either marks, and
both jobs are accepted (accepted = 2 for one owner). -/
theorem claim_C1_race_two_accepted :
    runInterleaved
      [true, true, false, false, true, true, true, true, true,
       false, false, false, false, false]
      caseHandlerSteps caseHandlerSteps ⟨false, 0⟩ = ⟨true, 2⟩ := rfl

/-- Under a fully serialized schedule the second submission is rejected by
the check and only one job is accepted, confirming that the double accept
of claim C1 is reachable only through the interleaving gap. -/
theorem runInterleaved_serialized_one :
    runInterleaved
      [true, true, true, true, true, true, true,
       false, false, false, false, false, false, false]
      caseHandlerSteps caseHandlerSteps ⟨false, 0⟩ = ⟨true, 1⟩ := rfl

/-- Claim C2 counterexample: the free text "a " (letter a followed by a
space) has a character outside the Base58 alphabet, so by the claim the
machine should stay in AwaitingPattern; the handler trims the text first
and accepts the pattern "a", advancing to AwaitingCase. -/
theorem claim_C2_counterexample :
    (' ' ∈ "a ".toList ∧ isBase58Char ' ' = false ∧ "a ".length = 2) ∧
    onText [] ⟨some "prefix", none⟩ "a "
      = ([], ⟨some "prefix", some "a"⟩, TextReply.casePrompt "a") :=
  ⟨⟨by decide, rfl, rfl⟩, rfl⟩

/-- Claim C2 (amended): in AwaitingPattern the validation applies to the
whitespace-trimmed text: if the trimmed length is outside one to four or a
trimmed character is outside the Base58 alphabet, the session is unchanged
(the machine stays in AwaitingPattern, the user is re-prompted) and the
job list is untouched; otherwise the trimmed pattern is recorded and the
machine advances to AwaitingCase. -/
theorem claim_C2_amended (q : List String) (s : Session) (text : String)
    (hty : s.searchType ≠ none) (hpat : s.vanityString = none) :
    ((jsTrim text).length < 1 ∨ (jsTrim text).length > 4 →
      onText q s text = (q, s, .invalidLength (jsTrim text) (jsTrim text).length)) ∧
    (1 ≤ (jsTrim text).length → (jsTrim text).length ≤ 4 →
      (jsTrim text).toList.all isBase58Char = false →
      onText q s text = (q, s, .invalidChar)) ∧
    (1 ≤ (jsTrim text).length → (jsTrim text).length ≤ 4 →
      (jsTrim text).toList.all isBase58Char = true →
      onText q s text
        = (q, { s with vanityString := some (jsTrim text) },
           .casePrompt (jsTrim text))) := by
  rcases hst : s.searchType with _ | ty
  · exact absurd hst hty
  · refine ⟨?_, ?_, ?_⟩
    · intro h
      simp only [onText, hst]
      rw [if_pos h]
    · intro h1 h2 hall
      simp only [onText, hst]
      rw [if_neg (by omega), if_pos hall]
    · intro h1 h2 hall
      simp only [onText, hst]
      rw [if_neg (by omega), if_neg (by rw [hall]; simp)]

/-- Claim C2 witness: a valid trimmed pattern advances the machine. -/
theorem claim_C2_witness :
    onText [] ⟨some "prefix", none⟩ "abc"
      = ([], ⟨some "prefix", some "abc"⟩, TextReply.casePrompt "abc") :=
  (claim_C2_amended [] ⟨some "prefix", none⟩ "abc" (by simp) rfl).2.2
    (by decide) (by decide) (by decide)

/-- Claim C3 counterexample: with exit code zero and output consisting of
an empty JSON object, the output parses as JSON but not as the result
schema of the spec (no address, no secret, no attempts, no time); the
claim then demands the job resolve failed, yet the worker stores the
payload and resolves the promise as completed. -/
theorem claim_C3_counterexample :
    jsonParse "\x7b\x7d" = some (Json.obj []) ∧
    specResultSchema (Json.obj []) = false ∧
    onClose "7" (some 0) "\x7b\x7d" "" emptyStore
      = (emptyStore.setex (vanityResultKey "7") 3600 "\x7b\x7d",
         Settle.resolved "7") :=
  ⟨rfl, rfl, rfl⟩

/-- Claim C3 (amended): the close handler resolves completed exactly when
the exit code is zero, the output is not whitespace-only, and the output
parses as JSON (no schema validation is performed); in that case the
parsed result is re-serialized into the store under the job key with TTL
3600.  Every other close outcome rejects with a diagnostic: the stderr
excerpt on non-zero or signal exit, a no-output message on empty output,
and the parse error on malformed output.  A spawn-level failure never
reaches the close handler: its own handler rejects with the raw error
(never resolving) and leaves the store untouched. -/
theorem claim_C3_amended (jobId : String) (code : Option Int)
    (output errorOutput : String) (st : Store) :
    (code ≠ some 0 →
      onClose jobId code output errorOutput st
        = (st, .rejected ("Generator error: " ++ errorOutput))) ∧
    (code = some 0 → jsTrim output = "" →
      onClose jobId code output errorOutput st
        = (st, .rejected "Generator produced no output")) ∧
    (code = some 0 → jsTrim output ≠ "" → jsonParse output = none →
      onClose jobId code output errorOutput st = (st, .rejected jsonParseErrorMsg)) ∧
    (∀ r, code = some 0 → jsTrim output ≠ "" → jsonParse output = some r →
      onClose jobId code output errorOutput st
        = (st.setex (vanityResultKey jobId) 3600 (stringify r), .resolved jobId) ∧
      (st.setex (vanityResultKey jobId) 3600 (stringify r)).get (vanityResultKey jobId)
        = some (stringify r) ∧
      (st.setex (vanityResultKey jobId) 3600 (stringify r)).getTtl
          (vanityResultKey jobId) = some 3600) ∧
    (∀ errMsg, onSpawnError errMsg st = (st, .rejected errMsg) ∧
      ∀ jid, (onSpawnError errMsg st).2 ≠ Settle.resolved jid) := by
  refine ⟨?_, ?_, ?_, ?_, ?_⟩
  · intro h
    simp [onClose, h]
  · intro h1 h2
    simp [onClose, h1, h2]
  · intro h1 h2 h3
    simp [onClose, h1, h2, h3]
  · intro r h1 h2 h3
    exact ⟨by simp [onClose, h1, h2, h3], Store.get_setex_same st _ _ _,
      Store.getTtl_setex_same st _ _ _⟩
  · intro errMsg
    exact ⟨rfl, fun jid => by simp [onSpawnError]⟩

/-- Claim C3 witness: exit code zero with parseable output resolves
completed and stores the serialized result with TTL 3600. -/
theorem claim_C3_witness :
    onClose "7" (some 0) "null" "" emptyStore
      = (emptyStore.setex (vanityResultKey "7") 3600 (stringify Json.null),
         Settle.resolved "7") ∧
    (emptyStore.setex (vanityResultKey "7") 3600 (stringify Json.null)).get
        (vanityResultKey "7") = some (stringify Json.null) ∧
    (emptyStore.setex (vanityResultKey "7") 3600 (stringify Json.null)).getTtl
        (vanityResultKey "7") = some 3600 :=
  (claim_C3_amended "7" (some 0) "null" "" emptyStore).2.2.2.1 Json.null rfl
    (by decide) rfl

/-- Claim C4 counterexample: on a normal successful exit at five
milliseconds, the deadline timer is not released: it is never cancelled
and still fires at the deadline, issuing a kill against the already exited
process (kills = 1), while the settlement stays at the first resolution. -/
theorem claim_C4_counterexample :
    (execJob "7" 5 (some 0) "null" "" emptyStore).settled
      = some (Settle.resolved "7") ∧
    (execJob "7" 5 (some 0) "null" "" emptyStore).timerCancelled = false ∧
    (execJob "7" 5 (some 0) "null" "" emptyStore).kills = 1 :=
  ⟨rfl, rfl, rfl⟩

/-- Claim C4 (amended): bot.js never calls clearTimeout, so the deadline
timer is not released on any exit path and always fires; the job outcome
is nevertheless settled exactly once, because the promise ignores any
resolve or reject after the first: on a close before the deadline the
settlement is the close handler outcome and the later timer firing cannot
override it, and on a close after the deadline the settlement is the
timeout rejection and the later close cannot override it. -/
theorem claim_C4_amended (jobId : String) (closeTime : Nat) (code : Option Int)
    (output errorOutput : String) (st : Store) :
    (execJob jobId closeTime code output errorOutput st).timerCancelled = false ∧
    (execJob jobId closeTime code output errorOutput st).settled ≠ none ∧
    (closeTime ≤ deadlineMs →
      (execJob jobId closeTime code output errorOutput st).settled
        = some (onClose jobId code output errorOutput st).2) ∧
    (deadlineMs < closeTime →
      (execJob jobId closeTime code output errorOutput st).settled
        = some (.rejected "Timeout") ∧
      (execJob jobId closeTime code output errorOutput st).kills = 1) := by
  by_cases h : closeTime ≤ deadlineMs
  · rw [execJob_early jobId closeTime code output errorOutput st h]
    refine ⟨rfl, by simp, fun _ => rfl, fun h2 => absurd h (by omega)⟩
  · rw [execJob_late jobId closeTime code output errorOutput st (by omega)]
    exact ⟨rfl, by simp, fun h2 => absurd h2 h, fun _ => ⟨rfl, rfl⟩⟩

/-- Claim C4 witness: a close before the deadline settles with the close
handler outcome. -/
theorem claim_C4_witness :
    (execJob "7" 5 (some 0) "null" "" emptyStore).settled
      = some (onClose "7" (some 0) "null" "" emptyStore).2 :=
  (claim_C4_amended "7" 5 (some 0) "null" "" emptyStore).2.2.1 (by decide)

/-- Claim C5: a process that would close only after the 600000 ms deadline
is killed by the timer (one SIGKILL issued) and the job settles as the
timeout rejection, never as a resolution. -/
theorem claim_C5_deadline (jobId : String) (closeTime : Nat) (code : Option Int)
    (output errorOutput : String) (st : Store) (h : deadlineMs < closeTime) :
    (execJob jobId closeTime code output errorOutput st).settled
      = some (Settle.rejected "Timeout") ∧
    (execJob jobId closeTime code output errorOutput st).kills = 1 ∧
    ∀ jid, (execJob jobId closeTime code output errorOutput st).settled
      ≠ some (Settle.resolved jid) := by
  rw [execJob_late jobId closeTime code output errorOutput st h]
  exact ⟨rfl, rfl, fun jid => by simp⟩

/-- Claim C5 witness: a close one millisecond past the deadline settles as
the timeout rejection. -/
theorem claim_C5_witness :
    (execJob "7" 600001 (some 0) "null" "" emptyStore).settled
      = some (Settle.rejected "Timeout") :=
  (claim_C5_deadline "7" 600001 (some 0) "null" "" emptyStore (by decide)).1

/-- Claim C6: the completion waiter on a finished notification performs
exactly one store read and nothing else (no retry, no cancellation, no
kill); a missed read fails with the distinct result-missing error; on
expiry of the caller timeout it fails with the timeout error having
performed no effect at all, so the job and any running process are left
uncancelled. -/
theorem claim_C6_waiter (st : Store) (jobId : String) :
    (waitForJobCompletion true .finished st jobId).2
      = [WaitEffect.readStore (vanityResultKey jobId)] ∧
    (st.get (vanityResultKey jobId) = none →
      waitForJobCompletion true .finished st jobId
        = (.error "Result not in Redis - job may have failed",
           [WaitEffect.readStore (vanityResultKey jobId)])) ∧
    ("Result not in Redis - job may have failed" ≠ "Job timeout") ∧
    waitForJobCompletion true .timedOut st jobId = (.error "Job timeout", []) := by
  refine ⟨?_, ?_, by decide, rfl⟩
  · rcases hget : st.get (vanityResultKey jobId) with _ | sres
    · simp [waitForJobCompletion, hget]
    · rcases hp : jsonParse sres with _ | j <;>
        simp [waitForJobCompletion, hget, hp]
  · intro hget
    simp [waitForJobCompletion, hget]

/-- Claim C6 witness: a finished notification against an empty store fails
with the result-missing error after its single read. -/
theorem claim_C6_witness :
    waitForJobCompletion true .finished emptyStore "7"
      = (.error "Result not in Redis - job may have failed",
         [WaitEffect.readStore (vanityResultKey "7")]) :=
  (claim_C6_waiter emptyStore "7").2.1 rfl

/-- Claim C7: cancel with no tracked job id answers no-active and changes
nothing; cancel with a tracked job id attempts the best-effort queue
removal and then unconditionally clears the owner entry in userJobs and
the generatingUsers marker, whatever the removal outcome was. -/
theorem claim_C7_cancel (u : Nat) (c : Coord) :
    (lookupJob c.userJobs u = none → cancelGen u c = (c, .noActive)) ∧
    (∀ jid, lookupJob c.userJobs u = some jid →
      (cancelGen u c).2 = .cancelled ∧
      lookupJob (cancelGen u c).1.userJobs u = none ∧
      (cancelGen u c).1.generatingUsers.contains u = false ∧
      (cancelGen u c).1.queue = (tryRemoveJob c.queue jid).1) := by
  constructor
  · intro h
    simp [cancelGen, h]
  · intro jid h
    simp only [cancelGen, h]
    exact ⟨trivial, lookupJob_filter_self _ _, contains_filter_self _ _, trivial⟩

/-- Claim C7 witness: cancelling a tracked waiting job clears the registry
entry and marker and removes the job. -/
theorem claim_C7_witness :
    (cancelGen 1 ⟨[(1, "42")], [1], [⟨"42", JobStatus.waiting⟩]⟩).2
      = CancelReply.cancelled ∧
    lookupJob (cancelGen 1
        ⟨[(1, "42")], [1], [⟨"42", JobStatus.waiting⟩]⟩).1.userJobs 1 = none ∧
    (cancelGen 1
        ⟨[(1, "42")], [1], [⟨"42", JobStatus.waiting⟩]⟩).1.generatingUsers.contains 1
      = false ∧
    (cancelGen 1 ⟨[(1, "42")], [1], [⟨"42", JobStatus.waiting⟩]⟩).1.queue
      = (tryRemoveJob [⟨"42", JobStatus.waiting⟩] "42").1 :=
  (claim_C7_cancel 1 ⟨[(1, "42")], [1], [⟨"42", JobStatus.waiting⟩]⟩).2 "42" rfl

/-- Claim C8 counterexample: in AwaitingCase (search type and pattern both
recorded, the case buttons showing) incoming free text is not ignored: the
handler re-validates it, overwrites the recorded pattern and replies with
the case prompt again, contradicting no-transition-and-no-reply. -/
theorem claim_C8_counterexample :
    onText [] ⟨some "prefix", some "abc"⟩ "xyz"
      = ([], ⟨some "prefix", some "xyz"⟩, TextReply.casePrompt "xyz") := rfl

/-- Claim C8 (amended): free text is gated only on whether a search type
is recorded: with none recorded (Idle, AwaitingType) it produces no reply
and no transition; with one recorded it is processed both in
AwaitingPattern and in AwaitingCase, where valid input overwrites the
recorded pattern and re-prompts the case question. -/
theorem claim_C8_amended (q : List String) (s : Session) (text : String) :
    (s.searchType = none → onText q s text = (q, s, .noReply)) ∧
    (∀ ty p, s.searchType = some ty → s.vanityString = some p →
      1 ≤ (jsTrim text).length → (jsTrim text).length ≤ 4 →
      (jsTrim text).toList.all isBase58Char = true →
      onText q s text
        = (q, { s with vanityString := some (jsTrim text) },
           .casePrompt (jsTrim text))) := by
  constructor
  · intro h
    simp [onText, h]
  · intro ty p hty hp h1 h2 hall
    simp only [onText, hty]
    rw [if_neg (by omega), if_neg (by rw [hall]; simp)]

/-- Claim C8 witness: valid free text in AwaitingCase overwrites the
pattern and re-prompts. -/
theorem claim_C8_witness :
    onText [] ⟨some "suffix", some "ab"⟩ "K9"
      = ([], ⟨some "suffix", some "K9"⟩, TextReply.casePrompt "K9") :=
  (claim_C8_amended [] ⟨some "suffix", some "ab"⟩ "K9").2 "suffix" "ab" rfl rfl
    (by decide) (by decide) (by decide)

/-- Claim C9: round-trip fidelity: after the worker writes the serialized
parsed result under the job key, a finished wait returns exactly that
result (serialize, store, retrieve, deserialize is the identity), with the
single store read as its only effect. -/
theorem claim_C9_roundtrip (st : Store) (jobId : String) (result : Json) :
    waitForJobCompletion true .finished
        (st.setex (vanityResultKey jobId) 3600 (stringify result)) jobId
      = (.ok result, [WaitEffect.readStore (vanityResultKey jobId)]) := by
  simp [waitForJobCompletion, Store.get_setex_same, jsonParse_stringify]

/-- Claim C10: delivery requires a truthy address field on the parsed
result: a missing address or an empty-string address surfaces as the
Invalid result generation failure even though the job resolved completed,
while a nonempty string address is delivered together with the private key
field. -/
theorem claim_C10_delivery (result : Json) :
    (lookupField result "address" = none →
      deliverResult result = .failedMsg "Invalid result") ∧
    (lookupField result "address" = some (Json.str "") →
      deliverResult result = .failedMsg "Invalid result") ∧
    (∀ a, lookupField result "address" = some (Json.str a) → a ≠ "" →
      deliverResult result
        = .sent (Json.str a) (lookupField result "privateKeyBase58")) := by
  refine ⟨?_, ?_, ?_⟩
  · intro h
    cases hb : jsTruthy result
    · simp [deliverResult, hb]
    · simp [deliverResult, hb, h]
  · intro h
    cases hb : jsTruthy result
    · simp [deliverResult, hb]
    · simp [deliverResult, hb, h, jsTruthy]
  · intro a h hne
    cases result with
    | obj kvs =>
      have ha : jsTruthy (Json.str a) = true := by simp [jsTruthy, hne]
      simp [deliverResult, jsTruthy, h, ha]
      exact hne
    | null => simp [lookupField] at h
    | bool b => simp [lookupField] at h
    | num i => simp [lookupField] at h
    | str s2 => simp [lookupField] at h
    | arr xs => simp [lookupField] at h

/-- Claim C10 witness: a result with a nonempty address is delivered with
its private key field. -/
theorem claim_C10_witness :
    deliverResult (Json.obj [("address", Json.str "So1x"),
        ("privateKeyBase58", Json.str "kk")])
      = Delivery.sent (Json.str "So1x")
          (lookupField (Json.obj [("address", Json.str "So1x"),
            ("privateKeyBase58", Json.str "kk")]) "privateKeyBase58") :=
  (claim_C10_delivery (Json.obj [("address", Json.str "So1x"),
    ("privateKeyBase58", Json.str "kk")])).2.2 "So1x" rfl (by decide)
